import Mathlib

/-!
# COSMIC Inventory standardization — shallow embedding

A shallow embedding of `src/cosmic_data_science/clean/standardize.py`.
Strings are lists of character codes (`List Nat`, ASCII in all inputs of
interest); spreadsheet cells are `Cell` (a string, a number, or NaN); a
dataset is a `List Row`.  The Python string operations used by the source
(`str.strip`, `str.title`, `re.search (a digit run)`, `str.split` at the
first colon, the character-class filter of `CLEAN_DESCRIPTION`) are
modelled character by character, and the pipeline
`standardize_inventory_data` is the sequence of transformations the
source applies, with `Option` capturing a raised exception (`none`).
-/

namespace Cosmic

/-! ## Character model (ASCII code points as `Nat`) -/

/-- Python whitespace for `str.strip` and the regex class `\s` (ASCII). -/
def isSpaceC (c : Nat) : Bool :=
  c = 32 || c = 9 || c = 10 || c = 13 || c = 11 || c = 12

/-- ASCII decimal digit, the regex class `\d`. -/
def isDigitC (c : Nat) : Bool := 48 ≤ c && c ≤ 57

def isLowerC (c : Nat) : Bool := 97 ≤ c && c ≤ 122

def isUpperC (c : Nat) : Bool := 65 ≤ c && c ≤ 90

/-- A cased character in the sense of `str.title` (ASCII letters). -/
def isLetterC (c : Nat) : Bool := isLowerC c || isUpperC c

def toUpperC (c : Nat) : Nat := if isLowerC c then c - 32 else c

def toLowerC (c : Nat) : Nat := if isUpperC c then c + 32 else c

/-- The regex class `\w` (ASCII): letters, digits, underscore. -/
def isWordC (c : Nat) : Bool := isLetterC c || isDigitC c || c = 95

/-- The colon code point, the delimiter of taxonomy labels. -/
def colon : Nat := 58

/-- Code-point view of a string literal, for concrete test inputs. -/
def strToCodes (s : String) : List Nat := s.data.map Char.toNat

/-! ## Python string operations -/

/-- `str.strip()`: drop leading and trailing whitespace. -/
def pyStrip (l : List Nat) : List Nat :=
  ((l.dropWhile isSpaceC).reverse.dropWhile isSpaceC).reverse

/-- The scan of `str.title()`: the flag records whether the previous
character was cased; a cased character is upper-cased after an uncased
position and lower-cased after a cased one. -/
def titleAux : Bool → List Nat → List Nat
  | _, [] => []
  | prev, c :: cs =>
    if isLetterC c then
      (if prev then toLowerC c else toUpperC c) :: titleAux true cs
    else
      c :: titleAux false cs

/-- `str.title()`. -/
def pyTitle (l : List Nat) : List Nat := titleAux false l

/-- End position of a maximal digit run starting at the head. -/
def digitRunStop : List Nat → Nat → Nat
  | [], i => i
  | c :: cs, i => if isDigitC c then digitRunStop cs (i + 1) else i

/-- `re.search(r'\d+', s).end()`: the end index of the first maximal
run of digits, or `none` when the string has no digit. -/
def digitRunEnd : List Nat → Nat → Option Nat
  | [], _ => none
  | c :: cs, i => if isDigitC c then some (digitRunStop cs (i + 1)) else digitRunEnd cs (i + 1)

/-! ## `clean_taxonomy_labels` -/

/-- The repair phase of `clean_taxonomy_labels`: when the converted
label has no colon, insert one after the digit run found by
`re.search(r'\d+', ...)`, if any. -/
def repairLabel (converted : List Nat) : List Nat :=
  if colon ∈ converted then converted
  else
    match digitRunEnd converted 0 with
    | some e => converted.take e ++ colon :: converted.drop e
    | none => converted

/-- `clean_taxonomy_labels(label)`: `None` on a falsy (empty) string;
otherwise strip and title-case; when no colon is present, insert one
after the digit run found by `re.search(r'\d+', ...)` if there is one;
when a colon is (now) present, return the stripped part before the
first colon; otherwise return the converted string unchanged. -/
def clean_taxonomy_labels (label : List Nat) : Option (List Nat) :=
  if label = [] then none
  else
    some (if colon ∈ repairLabel (pyTitle (pyStrip label)) then
        pyStrip ((repairLabel (pyTitle (pyStrip label))).takeWhile (fun c => decide (c ≠ colon)))
      else
        repairLabel (pyTitle (pyStrip label)))

/-! ## Cells and rows

A spreadsheet cell as pandas sees it: a string, a number, or NaN
(`na`).  An inventory row has the ten columns of the source module's
header comment. -/

inductive Cell
  | str : List Nat → Cell
  | num : Int → Cell
  | na : Cell
deriving DecidableEq

structure Row where
  techName : Cell
  producer : Cell
  description : Cell
  existing : Cell
  lvl1Cat : Cell
  lvl2Cat : Cell
  lvl3Cat : Cell
  trl : Cell
  lvl1Fun : Cell
  lvl2Fun : Cell
deriving DecidableEq

/-- The string payload of a cell, `none` on non-text values: the
`isinstance(cat, str)` test of the comprehensions. -/
def cellStr : Cell → Option (List Nat)
  | Cell.str s => some s
  | _ => none

/-- The pandas `.str` accessor: transform a string cell, send any
non-string value to NaN. -/
def strAccessorMap (f : List Nat → List Nat) : Cell → Cell
  | Cell.str s => Cell.str (f s)
  | _ => Cell.na

/-- `Series.fillna`: replace NaN by the given value. -/
def fillna (c v : Cell) : Cell :=
  match c with
  | Cell.na => v
  | c => c

/-! ## Consolidation helpers -/

/-- Python's `max(best :: rest, key=len)`: fold keeping the first
element of maximal length (a later element replaces the best only when
strictly longer). -/
def pyMaxLen : List Nat → List (List Nat) → List Nat
  | best, [] => best
  | best, x :: xs => pyMaxLen (if best.length < x.length then x else best) xs

/-- All-or-nothing collection of a list of optional values; `none`
models the `TypeError` of `len(None)` inside `max(..., key=len)` when
some label cleaned to `None`. -/
def allSome {α : Type} : List (Option α) → Option (List α)
  | [] => some []
  | none :: _ => none
  | some x :: l => (allSome l).map (fun ys => x :: ys)

def UNKNOWN_TECH : List Nat := strToCodes "Unknown Technology Category"
def UNKNOWN_FUN : List Nat := strToCodes "Unknown Functional Category"
def UNKNOWN_NAME : List Nat := strToCodes "Unknown Technology Name"
def UNKNOWN_PROD : List Nat := strToCodes "Unknown Tech Producer"
def NO_DESC : List Nat := strToCodes "No Description Available"
def UNKNOWN_EXISTING : List Nat := strToCodes "Unknown Existing Technology"

/-- `longest_tech_category(row)`: clean the string-valued fields among
the three category columns; an empty list yields the fallback, a `None`
among the cleaned labels raises (`none`), otherwise the first longest
cleaned label wins. -/
def longest_tech_category (r : Row) : Option (List Nat) :=
  match allSome ((([r.lvl1Cat, r.lvl2Cat, r.lvl3Cat]).filterMap cellStr).map
      clean_taxonomy_labels) with
  | none => none
  | some [] => some UNKNOWN_TECH
  | some (x :: xs) => some (pyMaxLen x xs)

/-- `longest_functional_category(row)`, same procedure over the two
functional category columns. -/
def longest_functional_category (r : Row) : Option (List Nat) :=
  match allSome ((([r.lvl1Fun, r.lvl2Fun]).filterMap cellStr).map
      clean_taxonomy_labels) with
  | none => none
  | some [] => some UNKNOWN_FUN
  | some (x :: xs) => some (pyMaxLen x xs)

/-- `clean_description(desc)`: placeholder for non-text, else drop every
character outside `[\w\s,.\-]`, strip, placeholder when empty. -/
def clean_description (desc : Cell) : List Nat :=
  match desc with
  | Cell.str s =>
    let cleaned := s.filter (fun c => isWordC c || isSpaceC c || c = 44 || c = 46 || c = 45)
    if pyStrip cleaned = [] then NO_DESC else pyStrip cleaned
  | _ => NO_DESC

/-! ## Pipeline stages -/

/-- `df.drop_duplicates()` keeping first occurrences, via a seen set. -/
def dedupAux : List Row → List Row → List Row
  | _, [] => []
  | seen, x :: xs =>
    if x ∈ seen then dedupAux seen xs
    else x :: dedupAux (x :: seen) xs

def dedup (l : List Row) : List Row := dedupAux [] l

/-- Lines 74–75: strip and title-case Technology Name and Tech
Producer through the `.str` accessor. -/
def step_names (r : Row) : Row :=
  { r with
    techName := strAccessorMap (fun s => pyTitle (pyStrip s)) r.techName
    producer := strAccessorMap (fun s => pyTitle (pyStrip s)) r.producer }

/-- Lines 94–97: one consolidated value assigned to all three
technology category columns. -/
def step_tech (r : Row) : Option Row :=
  (longest_tech_category r).map (fun v =>
    { r with lvl1Cat := Cell.str v, lvl2Cat := Cell.str v, lvl3Cat := Cell.str v })

/-- Line 113: first `apply`, assigned to Level One Functional Category. -/
def step_fun1 (r : Row) : Option Row :=
  (longest_functional_category r).map (fun v => { r with lvl1Fun := Cell.str v })

/-- Line 114: second `apply`, over the dataframe already holding the
line-113 assignment, assigned to Level Two Functional Category. -/
def step_fun2 (r : Row) : Option Row :=
  (longest_functional_category r).map (fun v => { r with lvl2Fun := Cell.str v })

/-- Lines 117–128: the `fillna` block, one placeholder per column. -/
def step_fill (r : Row) : Row :=
  { techName := fillna r.techName (Cell.str UNKNOWN_NAME)
    producer := fillna r.producer (Cell.str UNKNOWN_PROD)
    description := fillna r.description (Cell.str NO_DESC)
    existing := fillna r.existing (Cell.str UNKNOWN_EXISTING)
    lvl1Cat := fillna r.lvl1Cat (Cell.str UNKNOWN_TECH)
    lvl2Cat := fillna r.lvl2Cat (Cell.str UNKNOWN_TECH)
    lvl3Cat := fillna r.lvl3Cat (Cell.str UNKNOWN_TECH)
    trl := fillna r.trl (Cell.num 0)
    lvl1Fun := fillna r.lvl1Fun (Cell.str UNKNOWN_FUN)
    lvl2Fun := fillna r.lvl2Fun (Cell.str UNKNOWN_FUN) }

/-- Line 143: sanitize the description column. -/
def step_desc (r : Row) : Row :=
  { r with description := Cell.str (clean_description r.description) }

/-- Row-by-row application of a fallible stage; any raised exception
aborts the whole call, as `DataFrame.apply` does. -/
def mapOpt (f : Row → Option Row) : List Row → Option (List Row)
  | [] => some []
  | x :: xs =>
    match f x, mapOpt f xs with
    | some y, some ys => some (y :: ys)
    | _, _ => none

/-- `standardize_inventory_data` after `read_excel`: deduplicate,
normalize names, consolidate technology categories, run the two
functional-category passes in sequence, fill NaNs, sanitize
descriptions.  `none` models an uncaught exception. -/
def standardize_inventory_data (rows : List Row) : Option (List Row) :=
  (mapOpt step_tech ((dedup rows).map step_names)).bind (fun l2 =>
    (mapOpt step_fun1 l2).bind (fun l3 =>
      (mapOpt step_fun2 l3).map (fun l4 => (l4.map step_fill).map step_desc)))

/-! ## Spec-side definitions and concrete fixtures -/

/-- A row whose every cell is NaN, the base of the concrete fixtures. -/
def blankRow : Row :=
  ⟨Cell.na, Cell.na, Cell.na, Cell.na, Cell.na, Cell.na, Cell.na, Cell.na, Cell.na, Cell.na⟩

/-- Fixture for the functional-category invariant: one functional
label, the other functional field NaN. -/
def rowFunLabel : Row :=
  { blankRow with lvl1Fun := Cell.str (strToCodes "TX04.5.5: Capture Mechanisms") }

/-- Fixture with an empty-string category cell. -/
def rowEmptyCat : Row := { blankRow with lvl1Cat := Cell.str [] }

/-- Fixture with a whitespace-only Technology Name. -/
def rowSpaceName : Row := { blankRow with techName := Cell.str (strToCodes "   ") }

/-- Fixture with one full taxonomy label in the first category column. -/
def rowTaxLabel : Row :=
  { blankRow with lvl1Cat := Cell.str (strToCodes "TX04.5.5: Capture Mechanisms and Fixtures") }

/-- No field of the row is NaN. -/
def noNA (r : Row) : Prop :=
  r.techName ≠ Cell.na ∧ r.producer ≠ Cell.na ∧ r.description ≠ Cell.na ∧
    r.existing ≠ Cell.na ∧ r.lvl1Cat ≠ Cell.na ∧ r.lvl2Cat ≠ Cell.na ∧
    r.lvl3Cat ≠ Cell.na ∧ r.trl ≠ Cell.na ∧ r.lvl1Fun ≠ Cell.na ∧ r.lvl2Fun ≠ Cell.na

/-- The row every field of which is its placeholder: a fixed point of
each pipeline stage. -/
def placeholderRow : Row :=
  ⟨Cell.str UNKNOWN_NAME, Cell.str UNKNOWN_PROD, Cell.str NO_DESC,
    Cell.str UNKNOWN_EXISTING, Cell.str UNKNOWN_TECH, Cell.str UNKNOWN_TECH,
    Cell.str UNKNOWN_TECH, Cell.num 0, Cell.str UNKNOWN_FUN, Cell.str UNKNOWN_FUN⟩

/-- The cell is a non-empty string or not a string at all: the
hypothesis of the consolidation claim (an empty string would make
`clean_taxonomy_labels` signal `None`). -/
def okCat : Cell → Prop
  | Cell.str s => s ≠ []
  | _ => True

/-- The repaired value of a string cell, under `okCat` the value
`clean_taxonomy_labels` returns. -/
def cleanedVal (s : List Nat) : List Nat := (clean_taxonomy_labels s).getD []

/-- The cleaned labels of the string-valued technology category cells,
in column order. -/
def cleanedCats (r : Row) : List (List Nat) :=
  (([r.lvl1Cat, r.lvl2Cat, r.lvl3Cat]).filterMap cellStr).map cleanedVal

/-- Deduplication as the claim words it: keep the head, drop every
later exact duplicate of it, recurse. -/
def keepFirsts : List Row → List Row
  | [] => []
  | x :: xs => x :: keepFirsts (xs.filter (fun y => decide (y ≠ x)))
termination_by l => l.length
decreasing_by
  simp only [List.length_cons]
  exact Nat.lt_succ_of_le (List.length_filter_le _ _)

instance okCat.dec : (c : Cell) → Decidable (okCat c)
  | Cell.str s => inferInstanceAs (Decidable (s ≠ []))
  | Cell.num _ => inferInstanceAs (Decidable True)
  | Cell.na => inferInstanceAs (Decidable True)

/-- Fixture for the consolidation tie-break: two labelled category
cells, the third NaN. -/
def rowTieBreak : Row :=
  { blankRow with
    lvl1Cat := Cell.str (strToCodes "A: One")
    lvl2Cat := Cell.str (strToCodes "BB: Two") }

/-- The row with the consolidated value written to all three
technology-category fields, as lines 95–97 do. -/
def setCats (r : Row) (v : List Nat) : Row :=
  { r with lvl1Cat := Cell.str v, lvl2Cat := Cell.str v, lvl3Cat := Cell.str v }

/-! # Theorems

First the per-claim results on concrete fixtures, then the structural
lemmas and the quantified claims. -/

/-- C1.  The two functional-category fields are NOT identical after
processing: the source recomputes `longest_functional_category` for
Level Two after Level One has already been overwritten with a repaired
value, and repairing a repaired label truncates it at its first digit
run.  On a row whose only functional label is
"TX04.5.5: Capture Mechanisms", the output holds "Tx04.5.5" in Level
One but "Tx04" in Level Two.  (The three technology-category fields do
receive one shared value, lines 94–97.) -/
theorem C1_functional_fields_differ :
    (standardize_inventory_data [rowFunLabel]).map
        (List.map (fun r => (r.lvl1Fun, r.lvl2Fun)))
      = some [(Cell.str (strToCodes "Tx04.5.5"), Cell.str (strToCodes "Tx04"))] ∧
    Cell.str (strToCodes "Tx04.5.5") ≠ Cell.str (strToCodes "Tx04") := by
  constructor
  · rfl
  · decide

/-- C2.  A row with an empty-string category field makes the call
raise: the empty string passes the `isinstance(cat, str)` filter,
`clean_taxonomy_labels` returns `None` for it, and `max(categories,
key=len)` hits `len(None)` (`TypeError`), modelled as `none`. -/
theorem C2_empty_string_category_raises :
    standardize_inventory_data [rowEmptyCat] = none := by rfl

/-- C3, counterexample.  A whitespace-only Technology Name survives as
the empty string: `.str.strip()` maps it to `""`, which is not NaN, so
`fillna` leaves it alone — an output field that is empty. -/
theorem C3_counterexample :
    (standardize_inventory_data [rowSpaceName]).map (List.map Row.techName)
      = some [Cell.str []] := by rfl

/-- C4, counterexample.  `standardize` is not idempotent: the dataset
whose one row has Level One Category "TX04.5.5: Capture Mechanisms and
Fixtures" consolidates to "Tx04.5.5", and a second run truncates that
to "Tx04", so running the pipeline on its own (defined) output yields
a different dataset. -/
theorem C4_counterexample :
    (standardize_inventory_data [rowTaxLabel]).bind standardize_inventory_data
        ≠ standardize_inventory_data [rowTaxLabel] ∧
      (standardize_inventory_data [rowTaxLabel]).bind standardize_inventory_data
        ≠ none := by
  constructor
  · decide
  · decide

/-- C5.  `re.search(r'\d+', ...)` finds the FIRST contiguous digit
run, not the last: on "a1 b2" (title-cased "A1 B2") the code inserts
the colon after "1" and truncates there, returning "A1"; inserting
after the last run, as the claim and the function's own docstring
("finding the last number") describe, would return "A1 B2". -/
theorem C5_colon_after_first_digit_run :
    clean_taxonomy_labels (strToCodes "a1 b2") = some (strToCodes "A1") ∧
      strToCodes "A1" ≠ strToCodes "A1 B2" := by
  constructor
  · rfl
  · decide

/-- C6, counterexample.  Label repair does not keep the original
casing of the code prefix: `.title()` lower-cases the X of "TX". -/
theorem C6_counterexample :
    clean_taxonomy_labels (strToCodes "TX04.5.5: Capture Mechanisms and Fixtures")
      ≠ some (strToCodes "TX04.5.5") := by decide

/-- C6, amended.  On "TX04.5.5: Capture Mechanisms and Fixtures" label
repair returns the title-cased code prefix before the first colon:
"Tx04.5.5". -/
theorem C6_amended_title_cased :
    clean_taxonomy_labels (strToCodes "TX04.5.5: Capture Mechanisms and Fixtures")
      = some (strToCodes "Tx04.5.5") := by rfl

/-- C7, counterexample.  Description sanitization deletes '!', '#' and
'&' outright: no period appears after "text" and a double space is
left where " & " stood, so the output is not the claimed
"Valid, text. With symbols stuff.". -/
theorem C7_counterexample :
    clean_description (Cell.str (strToCodes "Valid, text! With #symbols & stuff."))
      ≠ strToCodes "Valid, text. With symbols stuff." := by decide

/-- C7, amended.  Sanitizing "Valid, text! With #symbols & stuff."
yields exactly "Valid, text With symbols  stuff." (two spaces before
"stuff."): the stripped characters are removed, not replaced. -/
theorem C7_amended_exact_output :
    clean_description (Cell.str (strToCodes "Valid, text! With #symbols & stuff."))
      = strToCodes "Valid, text With symbols  stuff." := by rfl

/-! ## No output field is NaN (the amended C3) -/

theorem fillna_ne_na : ∀ (c v : Cell), v ≠ Cell.na → fillna c v ≠ Cell.na
  | Cell.str _, _, _ => by simp [fillna]
  | Cell.num _, _, _ => by simp [fillna]
  | Cell.na, _, hv => hv

theorem noNA_after_fill_desc (r : Row) : noNA (step_desc (step_fill r)) := by
  refine ⟨?_, ?_, ?_, ?_, ?_, ?_, ?_, ?_, ?_, ?_⟩ <;>
    simp only [noNA, step_desc, step_fill] <;>
    first
      | exact fillna_ne_na _ _ (by simp)
      | simp

/-- C3, amended.  Whenever the pipeline completes, no field of any
output row is NaN: the `fillna` block put a non-NaN value in every
column and the later description pass keeps the column textual. -/
theorem C3_no_field_na (rows out : List Row)
    (h : standardize_inventory_data rows = some out) :
    ∀ r ∈ out, noNA r := by
  simp only [standardize_inventory_data, Option.bind_eq_some, Option.map_eq_some'] at h
  obtain ⟨l2, h2, l3, h3, l4, h4, hout⟩ := h
  subst hout
  intro r hr
  simp only [List.mem_map] at hr
  obtain ⟨r', ⟨r'', hmem, rfl⟩, rfl⟩ := hr
  exact noNA_after_fill_desc r''

theorem C3_no_field_na_witness : noNA placeholderRow :=
  C3_no_field_na [blankRow] [placeholderRow] (by rfl) placeholderRow (by simp)

/-! ## Fixed points of the pipeline (the amended C4) -/

theorem map_self_of {α : Type} (f : α → α) :
    ∀ (l : List α), (∀ x ∈ l, f x = x) → l.map f = l
  | [], _ => rfl
  | x :: xs, h => by
    simp only [List.map_cons, h x (by simp),
      map_self_of f xs (fun y hy => h y (by simp [hy]))]

theorem mapOpt_self (f : Row → Option Row) :
    ∀ (l : List Row), (∀ x ∈ l, f x = some x) → mapOpt f l = some l
  | [], _ => rfl
  | x :: xs, h => by
    simp only [mapOpt, h x (by simp),
      mapOpt_self f xs (fun y hy => h y (by simp [hy]))]

/-- C4, amended.  The pipeline returns a dataset unchanged exactly
when the dataset is fixed by each stage; the counterexample shows the
output of a first run need not be such a fixed point (its category
values are re-truncated), so idempotence fails in general but holds
for stage-fixed datasets. -/
theorem C4_amended_fixed_point (l : List Row)
    (h1 : dedup l = l)
    (h2 : ∀ r ∈ l, step_names r = r)
    (h3 : ∀ r ∈ l, step_tech r = some r)
    (h4 : ∀ r ∈ l, step_fun1 r = some r)
    (h5 : ∀ r ∈ l, step_fun2 r = some r)
    (h6 : ∀ r ∈ l, step_fill r = r)
    (h7 : ∀ r ∈ l, step_desc r = r) :
    standardize_inventory_data l = some l := by
  unfold standardize_inventory_data
  rw [h1, map_self_of _ l h2, mapOpt_self _ l h3, Option.some_bind,
    mapOpt_self _ l h4, Option.some_bind, mapOpt_self _ l h5,
    Option.map_some', map_self_of _ l h6, map_self_of _ l h7]

theorem C4_amended_fixed_point_witness :
    standardize_inventory_data [placeholderRow] = some [placeholderRow] :=
  C4_amended_fixed_point [placeholderRow] (by rfl) (by decide) (by decide)
    (by decide) (by decide) (by decide) (by decide)

/-! ## Deduplication (C9) -/

theorem dedupAux_eq_keepFirsts :
    ∀ (l seen : List Row),
      dedupAux seen l = keepFirsts (l.filter (fun y => decide (y ∉ seen)))
  | [], seen => by simp [dedupAux, keepFirsts]
  | x :: xs, seen => by
    by_cases hx : x ∈ seen
    · have hfilter : (x :: xs).filter (fun y => decide (y ∉ seen))
          = xs.filter (fun y => decide (y ∉ seen)) := by
        simp [List.filter_cons, hx]
      rw [hfilter]
      simp only [dedupAux, if_pos hx]
      exact dedupAux_eq_keepFirsts xs seen
    · have hfilter : (x :: xs).filter (fun y => decide (y ∉ seen))
          = x :: xs.filter (fun y => decide (y ∉ seen)) := by
        simp [List.filter_cons, hx]
      rw [hfilter]
      simp only [dedupAux, if_neg hx]
      rw [dedupAux_eq_keepFirsts xs (x :: seen), keepFirsts]
      have hpred : ∀ y ∈ xs, decide (y ∉ x :: seen)
          = (decide (y ≠ x) && decide (y ∉ seen)) := by
        intro y _
        by_cases h1 : y = x <;> by_cases h2 : y ∈ seen <;>
          simp [h1, h2, List.mem_cons]
      rw [List.filter_filter, List.filter_congr hpred]

theorem dedup_eq_keepFirsts (l : List Row) : dedup l = keepFirsts l := by
  have h := dedupAux_eq_keepFirsts l []
  simpa [dedup] using h

theorem keepFirsts_sublist : ∀ (l : List Row), (keepFirsts l).Sublist l := by
  intro l
  induction l using keepFirsts.induct with
  | case1 => simp [keepFirsts]
  | case2 x xs ih =>
    rw [keepFirsts]
    exact List.Sublist.cons₂ x (ih.trans (List.filter_sublist xs))

/-- C9.  Deduplication keeps exactly the first occurrence of each row
and preserves order: `dedup` agrees with the keep-the-head,
drop-later-duplicates recursion and is a sublist of its input; in
particular `[A, A, B]` with `A ≠ B` yields `[A, B]`. -/
theorem C9_dedup_keeps_first_occurrences :
    (∀ l : List Row, dedup l = keepFirsts l ∧ (dedup l).Sublist l) ∧
      ∀ A B : Row, A ≠ B → dedup [A, A, B] = [A, B] := by
  refine ⟨fun l => ⟨dedup_eq_keepFirsts l, ?_⟩, fun A B hAB => ?_⟩
  · rw [dedup_eq_keepFirsts l]
    exact keepFirsts_sublist l
  · simp [dedup, dedupAux, Ne.symm hAB]

theorem C9_dedup_witness :
    dedup [placeholderRow, placeholderRow, blankRow] = [placeholderRow, blankRow] :=
  C9_dedup_keeps_first_occurrences.2 placeholderRow blankRow (by decide)

/-! ## Consolidation (C8) -/

theorem pyMaxLen_acc_le : ∀ (xs : List (List Nat)) (x : List Nat),
    x.length ≤ (pyMaxLen x xs).length
  | [], _ => Nat.le_refl _
  | y :: ys, x => by
    simp only [pyMaxLen]
    by_cases h : x.length < y.length
    · rw [if_pos h]
      exact Nat.le_trans (Nat.le_of_lt h) (pyMaxLen_acc_le ys y)
    · rw [if_neg h]
      exact pyMaxLen_acc_le ys x

theorem pyMaxLen_mem_le : ∀ (xs : List (List Nat)) (x u : List Nat),
    u ∈ x :: xs → u.length ≤ (pyMaxLen x xs).length
  | [], x, u, hu => by
    simp only [List.mem_singleton] at hu
    subst hu
    exact Nat.le_refl _
  | y :: ys, x, u, hu => by
    simp only [pyMaxLen]
    have hb1 : x.length ≤ (if x.length < y.length then y else x).length := by
      split <;> omega
    have hb2 : y.length ≤ (if x.length < y.length then y else x).length := by
      split <;> omega
    rcases List.mem_cons.mp hu with rfl | hu'
    · exact Nat.le_trans hb1 (pyMaxLen_acc_le ys _)
    · rcases List.mem_cons.mp hu' with rfl | hu''
      · exact Nat.le_trans hb2 (pyMaxLen_acc_le ys _)
      · exact pyMaxLen_mem_le ys _ u (List.mem_cons_of_mem _ hu'')

theorem pyMaxLen_split : ∀ (xs : List (List Nat)) (x : List Nat),
    ∃ pre post, x :: xs = pre ++ pyMaxLen x xs :: post ∧
      ∀ u ∈ pre, u.length < (pyMaxLen x xs).length
  | [], x => ⟨[], [], rfl, by simp⟩
  | y :: ys, x => by
    simp only [pyMaxLen]
    by_cases h : x.length < y.length
    · rw [if_pos h]
      obtain ⟨pre, post, hsplit, hpre⟩ := pyMaxLen_split ys y
      refine ⟨x :: pre, post, ?_, ?_⟩
      · rw [List.cons_append, ← hsplit]
      · intro u hu
        rcases List.mem_cons.mp hu with rfl | hu'
        · exact Nat.lt_of_lt_of_le h (pyMaxLen_acc_le ys y)
        · exact hpre u hu'
    · rw [if_neg h]
      obtain ⟨pre, post, hsplit, hpre⟩ := pyMaxLen_split ys x
      generalize hgen : pyMaxLen x ys = v at hsplit hpre ⊢
      cases pre with
      | nil =>
        simp only [List.nil_append, List.cons.injEq] at hsplit
        obtain ⟨hx, hpost⟩ := hsplit
        exact ⟨[], y :: ys, by rw [List.nil_append, ← hx], by simp⟩
      | cons p ps =>
        simp only [List.cons_append, List.cons.injEq] at hsplit
        obtain ⟨hp, hys⟩ := hsplit
        refine ⟨x :: y :: ps, post, ?_, ?_⟩
        · rw [hys]
          simp [List.cons_append]
        · intro u hu
          have hxlt : x.length < v.length := by
            refine hpre x ?_
            rw [hp]
            exact List.mem_cons_self p ps
          rcases List.mem_cons.mp hu with rfl | hu'
          · exact hxlt
          · rcases List.mem_cons.mp hu' with rfl | hu''
            · omega
            · exact hpre u (List.mem_cons_of_mem p hu'')

theorem allSome_map_some {α β : Type} (f : α → Option β) (g : α → β) :
    ∀ (l : List α), (∀ x ∈ l, f x = some (g x)) →
      allSome (l.map f) = some (l.map g)
  | [], _ => rfl
  | x :: xs, h => by
    simp only [List.map_cons, h x (by simp), allSome,
      allSome_map_some f g xs (fun y hy => h y (by simp [hy])), Option.map_some']

theorem clean_taxonomy_labels_eq_some (s : List Nat) (hs : s ≠ []) :
    clean_taxonomy_labels s = some (cleanedVal s) := by
  unfold cleanedVal
  unfold clean_taxonomy_labels
  rw [if_neg hs]
  rfl

/-- C8.  On a row whose category cells are each a non-empty string or
non-text, consolidation returns "Unknown Technology Category" when no
cell is a string, and otherwise the repaired value of the first cell
attaining the maximal length (everything before it in column order is
strictly shorter, everything overall is at most as long); the chosen
value is written to all three category fields. -/
theorem C8_consolidation (r : Row)
    (h1 : okCat r.lvl1Cat) (h2 : okCat r.lvl2Cat) (h3 : okCat r.lvl3Cat) :
    (cleanedCats r = [] ∧ longest_tech_category r = some UNKNOWN_TECH ∧
        step_tech r = some (setCats r UNKNOWN_TECH)) ∨
      ∃ v pre post,
        longest_tech_category r = some v ∧
        cleanedCats r = pre ++ v :: post ∧
        (∀ u ∈ pre, u.length < v.length) ∧
        (∀ u ∈ cleanedCats r, u.length ≤ v.length) ∧
        step_tech r = some (setCats r v) := by
  have hne : ∀ s ∈ ([r.lvl1Cat, r.lvl2Cat, r.lvl3Cat]).filterMap cellStr, s ≠ [] := by
    intro s hs
    rw [List.mem_filterMap] at hs
    obtain ⟨c, hc, hcs⟩ := hs
    have hok : okCat c := by
      rcases (by simpa using hc : c = r.lvl1Cat ∨ c = r.lvl2Cat ∨ c = r.lvl3Cat)
        with rfl | rfl | rfl
      exacts [h1, h2, h3]
    cases c with
    | str t =>
      have ht : t = s := by simpa [cellStr] using hcs
      exact ht ▸ hok
    | num n => exact absurd hcs (by simp [cellStr])
    | na => exact absurd hcs (by simp [cellStr])
  have hall : allSome ((([r.lvl1Cat, r.lvl2Cat, r.lvl3Cat]).filterMap cellStr).map
        clean_taxonomy_labels)
      = some (cleanedCats r) :=
    allSome_map_some _ _ _ (fun s hs => clean_taxonomy_labels_eq_some s (hne s hs))
  have hlong : (cleanedCats r = [] ∧ longest_tech_category r = some UNKNOWN_TECH) ∨
      ∃ x xs, cleanedCats r = x :: xs ∧
        longest_tech_category r = some (pyMaxLen x xs) := by
    unfold longest_tech_category
    rw [hall]
    cases hcc : cleanedCats r with
    | nil => exact Or.inl ⟨rfl, rfl⟩
    | cons x xs => exact Or.inr ⟨x, xs, rfl, rfl⟩
  rcases hlong with ⟨hcc, hl⟩ | ⟨x, xs, hcc, hl⟩
  · refine Or.inl ⟨hcc, hl, ?_⟩
    unfold step_tech
    rw [hl]
    rfl
  · obtain ⟨pre, post, hsplit, hpre⟩ := pyMaxLen_split xs x
    refine Or.inr ⟨pyMaxLen x xs, pre, post, hl, ?_, hpre, ?_, ?_⟩
    · rw [hcc]
      exact hsplit
    · intro u hu
      rw [hcc] at hu
      exact pyMaxLen_mem_le xs x u hu
    · unfold step_tech
      rw [hl]
      rfl

theorem C8_consolidation_witness :
    (cleanedCats rowTieBreak = [] ∧
        longest_tech_category rowTieBreak = some UNKNOWN_TECH ∧
        step_tech rowTieBreak = some (setCats rowTieBreak UNKNOWN_TECH)) ∨
      ∃ v pre post,
        longest_tech_category rowTieBreak = some v ∧
        cleanedCats rowTieBreak = pre ++ v :: post ∧
        (∀ u ∈ pre, u.length < v.length) ∧
        (∀ u ∈ cleanedCats rowTieBreak, u.length ≤ v.length) ∧
        step_tech rowTieBreak = some (setCats rowTieBreak v) :=
  C8_consolidation rowTieBreak (by decide) (by decide) (by decide)

/-! ## Shape of repaired labels (C10) -/

theorem isSpaceC_toUpperC (c : Nat) : isSpaceC (toUpperC c) = isSpaceC c := by
  unfold toUpperC
  split
  · rename_i hlow
    simp only [isLowerC, Bool.and_eq_true, decide_eq_true_eq] at hlow
    have h1 : isSpaceC (c - 32) = false := by
      simp only [isSpaceC, Bool.or_eq_false_iff, decide_eq_false_iff_not]
      omega
    have h2 : isSpaceC c = false := by
      simp only [isSpaceC, Bool.or_eq_false_iff, decide_eq_false_iff_not]
      omega
    rw [h1, h2]
  · rfl

theorem isSpaceC_toLowerC (c : Nat) : isSpaceC (toLowerC c) = isSpaceC c := by
  unfold toLowerC
  split
  · rename_i hup
    simp only [isUpperC, Bool.and_eq_true, decide_eq_true_eq] at hup
    have h1 : isSpaceC (c + 32) = false := by
      simp only [isSpaceC, Bool.or_eq_false_iff, decide_eq_false_iff_not]
      omega
    have h2 : isSpaceC c = false := by
      simp only [isSpaceC, Bool.or_eq_false_iff, decide_eq_false_iff_not]
      omega
    rw [h1, h2]
  · rfl

theorem titleAux_cons_form (b : Bool) (d : Nat) (ds : List Nat) :
    ∃ e b', titleAux b (d :: ds) = e :: titleAux b' ds ∧ isSpaceC e = isSpaceC d := by
  by_cases hd : isLetterC d
  · refine ⟨if b then toLowerC d else toUpperC d, true, by simp [titleAux, hd], ?_⟩
    by_cases hb : b <;> simp [hb, isSpaceC_toLowerC, isSpaceC_toUpperC]
  · exact ⟨d, false, by simp [titleAux, hd], rfl⟩

theorem titleAux_head_space (b : Bool) (l : List Nat) :
    ∀ c, (titleAux b l).head? = some c →
      ∃ d, l.head? = some d ∧ isSpaceC c = isSpaceC d := by
  cases l with
  | nil => intro c h; simp [titleAux] at h
  | cons d ds =>
    intro c h
    obtain ⟨e, b', hform, hsp⟩ := titleAux_cons_form b d ds
    rw [hform, List.head?_cons, Option.some.injEq] at h
    exact ⟨d, rfl, h ▸ hsp⟩

theorem titleAux_getLast_space : ∀ (l : List Nat) (b : Bool) (c : Nat),
    (titleAux b l).getLast? = some c →
      ∃ d, l.getLast? = some d ∧ isSpaceC c = isSpaceC d
  | [], b, c => by intro h; simp [titleAux] at h
  | [d], b, c => by
    intro h
    obtain ⟨e, b', hform, hsp⟩ := titleAux_cons_form b d []
    rw [hform] at h
    simp only [titleAux, List.getLast?_singleton, Option.some.injEq] at h
    exact ⟨d, by simp, h ▸ hsp⟩
  | d₁ :: d₂ :: ds, b, c => by
    intro h
    obtain ⟨e, b', hform, _⟩ := titleAux_cons_form b d₁ (d₂ :: ds)
    rw [hform] at h
    obtain ⟨e₂, b₂, hform₂, _⟩ := titleAux_cons_form b' d₂ ds
    rw [hform₂, List.getLast?_cons_cons, ← hform₂] at h
    obtain ⟨d, hd, hs⟩ := titleAux_getLast_space (d₂ :: ds) b' c h
    exact ⟨d, by rw [List.getLast?_cons_cons]; exact hd, hs⟩

theorem head_dropWhile_not_space : ∀ (l : List Nat) (c : Nat),
    (l.dropWhile isSpaceC).head? = some c → isSpaceC c = false
  | [], c => by intro h; simp at h
  | d :: ds, c => by
    intro h
    by_cases hd : isSpaceC d = true
    · rw [List.dropWhile_cons, if_pos hd] at h
      exact head_dropWhile_not_space ds c h
    · rw [List.dropWhile_cons, if_neg hd, List.head?_cons, Option.some.injEq] at h
      simp only [Bool.not_eq_true] at hd
      exact h ▸ hd

theorem dropWhile_eq_self_of_head (p : Nat → Bool) (l : List Nat)
    (h : ∀ c, l.head? = some c → p c = false) : l.dropWhile p = l := by
  cases l with
  | nil => rfl
  | cons d ds =>
    rw [List.dropWhile_cons, if_neg]
    simp [h d rfl]

theorem rstrip_append (m : List Nat) :
    ∃ s, m = (m.reverse.dropWhile isSpaceC).reverse ++ s := by
  obtain ⟨t, ht⟩ := List.dropWhile_suffix (p := isSpaceC) (l := m.reverse)
  refine ⟨t.reverse, ?_⟩
  have h2 := congrArg List.reverse ht
  simpa [List.reverse_append] using h2.symm

theorem head_rstrip (m : List Nat) (c : Nat)
    (hc : ((m.reverse.dropWhile isSpaceC).reverse).head? = some c) :
    m.head? = some c := by
  obtain ⟨s, hs⟩ := rstrip_append m
  rw [hs]
  cases hform : (m.reverse.dropWhile isSpaceC).reverse with
  | nil => rw [hform] at hc; simp at hc
  | cons a as =>
    rw [hform] at hc
    simpa using hc

theorem getLast_rstrip_not_space (m : List Nat) (c : Nat)
    (hc : ((m.reverse.dropWhile isSpaceC).reverse).getLast? = some c) :
    isSpaceC c = false := by
  rw [List.getLast?_reverse] at hc
  exact head_dropWhile_not_space m.reverse c hc

theorem rstrip_eq_self (m : List Nat)
    (h : ∀ c, m.getLast? = some c → isSpaceC c = false) :
    (m.reverse.dropWhile isSpaceC).reverse = m := by
  rw [dropWhile_eq_self_of_head isSpaceC m.reverse
    (fun c hc => h c (by rwa [List.head?_reverse] at hc)), List.reverse_reverse]

theorem pyStrip_head_not_space (l : List Nat) :
    ∀ c, (pyStrip l).head? = some c → isSpaceC c = false := by
  intro c h
  exact head_dropWhile_not_space l c (head_rstrip (l.dropWhile isSpaceC) c h)

theorem pyStrip_getLast_not_space (l : List Nat) :
    ∀ c, (pyStrip l).getLast? = some c → isSpaceC c = false := by
  intro c h
  exact getLast_rstrip_not_space (l.dropWhile isSpaceC) c h

theorem pyStrip_eq_self (l : List Nat)
    (hh : ∀ c, l.head? = some c → isSpaceC c = false)
    (hl : ∀ c, l.getLast? = some c → isSpaceC c = false) :
    pyStrip l = l := by
  unfold pyStrip
  rw [dropWhile_eq_self_of_head isSpaceC l hh]
  exact rstrip_eq_self l hl

theorem pyStrip_idem (l : List Nat) : pyStrip (pyStrip l) = pyStrip l :=
  pyStrip_eq_self (pyStrip l) (pyStrip_head_not_space l) (pyStrip_getLast_not_space l)

theorem pyStrip_pyTitle (l : List Nat) (hfix : pyStrip l = l) :
    pyStrip (pyTitle l) = pyTitle l := by
  apply pyStrip_eq_self
  · intro c hc
    obtain ⟨d, hd, hs⟩ := titleAux_head_space false l c hc
    rw [hs]
    exact pyStrip_head_not_space l d (by rwa [hfix])
  · intro c hc
    obtain ⟨d, hd, hs⟩ := titleAux_getLast_space l false c hc
    rw [hs]
    exact pyStrip_getLast_not_space l d (by rwa [hfix])

theorem pyStrip_sublist (l : List Nat) : (pyStrip l).Sublist l := by
  unfold pyStrip
  have h1 : (l.dropWhile isSpaceC).Sublist l := List.dropWhile_sublist _
  have h2 : (((l.dropWhile isSpaceC).reverse.dropWhile isSpaceC).reverse).Sublist
      ((l.dropWhile isSpaceC).reverse.reverse) :=
    List.reverse_sublist.mpr (List.dropWhile_sublist _)
  rw [List.reverse_reverse] at h2
  exact h2.trans h1

theorem repairLabel_no_colon (conv : List Nat)
    (h : colon ∉ repairLabel conv) : repairLabel conv = conv := by
  unfold repairLabel at h ⊢
  by_cases hc : colon ∈ conv
  · rw [if_pos hc]
  · rw [if_neg hc] at h ⊢
    cases hd : digitRunEnd conv 0 with
    | none => rfl
    | some e =>
      rw [hd] at h
      exact absurd (by simp : colon ∈ conv.take e ++ colon :: conv.drop e) h

/-- C10.  Whenever label repair returns a string, that string contains
no colon and carries no leading or trailing whitespace (it is a fixed
point of `strip`): the colon branch strips the part before the first
colon, and the uncolonized branch returns the title-cased strip, which
title-casing leaves stripped. -/
theorem C10_repaired_label_shape (s t : List Nat)
    (h : clean_taxonomy_labels s = some t) :
    colon ∉ t ∧ pyStrip t = t := by
  unfold clean_taxonomy_labels at h
  by_cases hs : s = []
  · rw [if_pos hs] at h
    exact absurd h (by simp)
  · rw [if_neg hs] at h
    simp only [Option.some.injEq] at h
    by_cases hcol : colon ∈ repairLabel (pyTitle (pyStrip s))
    · rw [if_pos hcol] at h
      subst h
      refine ⟨?_, pyStrip_idem _⟩
      intro hmem
      have hp := List.mem_takeWhile_imp ((pyStrip_sublist _).subset hmem)
      simp at hp
    · rw [if_neg hcol] at h
      subst h
      refine ⟨hcol, ?_⟩
      rw [repairLabel_no_colon _ hcol]
      exact pyStrip_pyTitle (pyStrip s) (pyStrip_idem s)

theorem C10_repaired_label_shape_witness :
    colon ∉ strToCodes "Tx04" ∧ pyStrip (strToCodes "Tx04") = strToCodes "Tx04" :=
  C10_repaired_label_shape (strToCodes "TX04: thing") (strToCodes "Tx04") (by rfl)

end Cosmic

